import Mathlib

/-!
# Verification of the 529Estimator compounding-simulation engine

Shallow embedding of `src/estimator529/finance.py` and the engine-selection
part of `src/estimator529/computation.py`.  Python floats are modelled as
exact rationals (`ℚ`), Python ints as `ℤ`, Python dicts keyed by period
index as finitely-built functions `ℤ → ℚ` (absent key = `0.0`, matching
`dict.get(k, 0.0)`), and fallible calls as `Except PyError`.

Divisions are total (Lean's `x / 0 = 0` convention); every theorem that
exercises a division keeps hypotheses (`1 ≤ m`, `1 + r/m ≠ 0`) under which
the Python code does not raise `ZeroDivisionError`, so the convention is
never observable in a proved statement.
-/

namespace Estimator529

/-- Errors the Python code raises on the modelled paths: `valueError` for
`ValueError` (malformed schedule arity, unknown engine string), `typeError`
for `TypeError` (`float(None)`), `runtimeError` for `RuntimeError` (NumPy
engine forced while unavailable). -/
inductive PyError where
  | valueError
  | typeError
  | runtimeError
deriving DecidableEq, Repr

/-- A raw schedule segment as passed to `_normalize_monthlies`: a Python
tuple whose fields are numbers or `None`.  Arity is the list length; an
empty tuple is falsy in Python. -/
abbrev RawSegment := List (Option ℚ)

/-- Normalized `MonthlySchedule = Tuple[float, Optional[float], float]`:
`(start, end?, amount)`, `none` end meaning unbounded. -/
abbrev MonthlySchedule := ℚ × Option ℚ × ℚ

/-- The `monthly` argument of the finance functions:
`Optional[Union[MonthlySchedule, MonthlySeq]]` — `None`, a single 3-tuple,
or a sequence of raw segments. -/
inductive MonthlyArg where
  | none
  | single (s : ℚ) (e : Option ℚ) (a : ℚ)
  | seq (items : List RawSegment)

/-- The `1e-9` epsilon guard used on every ceiling/floor index computation
in `finance.py`. -/
def eps : ℚ := 1 / 1000000000

/-- Python's `round` (banker's rounding, half to even) composed with
`int(...)`, as used in `int(round(x))`. -/
def pyRound (q : ℚ) : ℤ :=
  let f := ⌊q⌋
  let r := q - f
  if r < 1/2 then f
  else if 1/2 < r then f + 1
  else if f % 2 = 0 then f else f + 1

/-- Python `range(a, b)` over integers. -/
def pyRange (a b : ℤ) : List ℤ :=
  (List.range (b - a).toNat).map (fun (k : ℕ) => a + (k : ℤ))

/-- Python `range(a, b, s)` for a positive step `s` (the only case the code
exercises: `range(0, months + 1, m)`; Python raises on `s = 0` and the
callers never pass `s < 0`, so those cases return `[]` here). -/
def pyRangeStep (a b s : ℤ) : List ℤ :=
  if s ≤ 0 then []
  else (List.range ((b - a + s - 1) / s).toNat).map (fun (k : ℕ) => a + (k : ℤ) * s)

/-- `finance._age_to_month_end`: the last month index `<= max_month` whose
ending age is `<= age`, i.e. `floor((age - start_age) * m + 1e-9)` clamped
into `[0, max_month]` (the clamps applied in the source's order). -/
def _age_to_month_end (age start_age : ℚ) (m max_month : ℤ) : ℤ :=
  let idx := ⌊(age - start_age) * m + eps⌋
  let idx := if idx < 0 then 0 else idx
  if idx > max_month then max_month else idx

/-- One pass of `_normalize_monthlies` over a sequence of raw segments:
falsy (empty) items are skipped, items of arity ≠ 3 raise `ValueError`,
`float(None)` on the start or amount field raises `TypeError`, and a `None`
end age is kept as unbounded. -/
def normalizeSeq : List RawSegment → Except PyError (List MonthlySchedule)
  | [] => .ok []
  | item :: rest =>
    if item = [] then normalizeSeq rest
    else
      match item with
      | [Option.some st, en, Option.some amt] =>
          (normalizeSeq rest).map (fun tl => (st, en, amt) :: tl)
      | [_, _, _] => .error .typeError
      | _ => .error .valueError

/-- `finance._normalize_monthlies`: `None` and the empty sequence give `[]`,
a single 3-tuple is wrapped as a one-element list (returned as-is, matching
the `isinstance(monthly, tuple)` early return), and a sequence is processed
item by item via `normalizeSeq`. -/
def _normalize_monthlies : MonthlyArg → Except PyError (List MonthlySchedule)
  | .none => .ok []
  | .single s e a => .ok [(s, e, a)]
  | .seq items => if items = [] then .ok [] else normalizeSeq items

/-- Pointwise update of a period-injection map, modelling
`d[k] = d.get(k, 0.0) + a`. -/
def updateMap (f : ℤ → ℚ) (k : ℤ) (a : ℚ) : ℤ → ℚ :=
  fun j => if j = k then f j + a else f j

/-- Result triple of `_pre_start_value_and_adjust`. -/
structure PreStartResult where
  pre_value : ℚ
  post_lumps : List (ℚ × ℚ)
  monthly_by_period : ℤ → ℚ

/-- The lump-event pass of `_pre_start_value_and_adjust`: each lump dated
before `start_age` is rolled forward by
`months = ceil((start_age - age) * m - 1e-9)` periods (added unrolled when
`months <= 0`). -/
def preLumpValue (lump_events : List (ℚ × ℚ)) (start_age : ℚ) (m : ℤ) (i : ℚ) : ℚ :=
  lump_events.foldl
    (fun acc la =>
      if la.1 < start_age then
        let months := ⌈(start_age - la.1) * m - eps⌉
        if months > 0 then acc + la.2 * (1 + i) ^ months else acc + la.2
      else acc)
    0

/-- The body of the recurring-schedule month loop in
`_pre_start_value_and_adjust`, threading `(pre_value, monthly_by_period)`. -/
def monthStep (start_age horizon m_start eff_end m_amt : ℚ) (m total_periods : ℤ)
    (i : ℚ) (st : ℚ × (ℤ → ℚ)) (month_idx : ℤ) : ℚ × (ℤ → ℚ) :=
  let contrib_age := start_age + (month_idx : ℚ) / 12
  if contrib_age < m_start - eps ∨ contrib_age > eff_end + eps then st
  else if contrib_age < start_age - eps then
    let months_forward := ⌈(start_age - contrib_age) * m - eps⌉
    if months_forward > 0 then (st.1 + m_amt * (1 + i) ^ months_forward, st.2)
    else (st.1 + m_amt, st.2)
  else if contrib_age > horizon + eps then st
  else
    let period_idx := _age_to_month_end contrib_age start_age m total_periods
    if 0 ≤ period_idx ∧ period_idx ≤ total_periods then
      (st.1, updateMap st.2 period_idx m_amt)
    else st

/-- The per-segment step of the recurring-schedule pass: clip the segment's
end to the horizon, skip empty windows, and enumerate calendar months on the
12-per-year grid. -/
def schedStep (start_age horizon : ℚ) (m total_periods : ℤ) (i : ℚ)
    (st : ℚ × (ℤ → ℚ)) (sched : MonthlySchedule) : ℚ × (ℤ → ℚ) :=
  let m_start := sched.1
  let m_end := sched.2.1
  let m_amt := sched.2.2
  let eff_end := min (m_end.getD horizon) horizon
  if eff_end ≤ m_start then st
  else
    let start_month_idx := ⌈(m_start - start_age) * 12 - eps⌉
    let end_month_idx := ⌊(eff_end - start_age) * 12 + eps⌋
    if end_month_idx < start_month_idx then st
    else
      (pyRange start_month_idx (end_month_idx + 1)).foldl
        (monthStep start_age horizon m_start eff_end m_amt m total_periods i) st

/-- `finance._pre_start_value_and_adjust`: roll contributions before
`start_age` forward and trim inputs to the analysis window. -/
def _pre_start_value_and_adjust (lump_events : List (ℚ × ℚ)) (monthly : MonthlyArg)
    (r start_age horizon_age : ℚ) (m : ℤ) : Except PyError PreStartResult := do
  let horizon := max horizon_age start_age
  let total_periods := pyRound ((horizon - start_age) * m)
  let i := r / m
  let pre0 := preLumpValue lump_events start_age m i
  let post_lumps := lump_events.filter (fun la => ¬ la.1 < start_age ∧ la.1 ≤ horizon)
  let norm ← _normalize_monthlies monthly
  let st := norm.foldl (schedStep start_age horizon m total_periods i) (pre0, fun _ => 0)
  return ⟨st.1, post_lumps, st.2⟩

/-- One iteration of the simulation loop: add any lump bucketed at this
period *before* growth, multiply by `(1 + i)`, then add any recurring
injection *after* growth (the fixed injection-order contract). -/
def step1 (i : ℚ) (lump rec : ℤ → ℚ) (value : ℚ) (mi : ℤ) : ℚ :=
  let v := value + lump mi
  let v := v * (1 + i)
  v + rec mi

/-- The `for mi in range(0, end_month + 1)` loop of `timeline_hybrid_py`,
emitting `(start_age + mi // m, value)` whenever `mi % m == 0` (Python's
`%` and `//` are floor-based, hence `Int.fmod` / `Int.fdiv`). -/
def pyLoop (i : ℚ) (lump rec : ℤ → ℚ) (m start_age : ℤ) :
    ℚ → ℤ → ℕ → List (ℤ × ℚ)
  | _, _, 0 => []
  | value, mi, fuel + 1 =>
    let v := step1 i lump rec value mi
    (if mi.fmod m = 0 then [(start_age + mi.fdiv m, v)] else []) ++
      pyLoop i lump rec m start_age v (mi + 1) fuel

/-- The `lump_by_month` dict built by both simulators: post-start lumps
bucketed by `_age_to_month_end`. -/
def lumpsToMap (post : List (ℚ × ℚ)) (start_age : ℚ) (m max_month : ℤ) : ℤ → ℚ :=
  post.foldl (fun f la => updateMap f (_age_to_month_end la.1 start_age m max_month) la.2)
    (fun _ => 0)

/-- `finance.timeline_hybrid_py`: pure-Python monthly simulation with yearly
snapshots.  `int(round((end_age - start_age) * m))` is exact on the integer
arguments, hence the plain integer product for `end_month`. -/
def timeline_hybrid_py (lump_events : List (ℚ × ℚ)) (monthly : MonthlyArg) (r : ℚ)
    (start_age end_age m : ℤ) : Except PyError (List (ℤ × ℚ)) := do
  let res ← _pre_start_value_and_adjust lump_events monthly r start_age end_age m
  let i := r / m
  let end_month : ℤ := (end_age - start_age) * m
  let lump_by_month := lumpsToMap res.post_lumps start_age m end_month
  let monthly_vec : ℤ → ℚ := fun k =>
    if 0 ≤ k ∧ k ≤ end_month then res.monthly_by_period k else 0
  return pyLoop i lump_by_month monthly_vec m start_age res.pre_value 0 (end_month + 1).toNat

/-- `finance.timeline_hybrid_np`: vectorized monthly simulation.  The
NumPy availability flag is passed explicitly; without it the source
delegates to the pure-Python path.  `np.convolve(adj, powers, "full")`
truncated to `months + 1` entries is, at index `t <= months`,
`sum_{k=0..t} adj[k] * growth^(t-k)`, embedded here as `conv`. -/
def timeline_hybrid_np (has_numpy : Bool) (lump_events : List (ℚ × ℚ))
    (monthly : MonthlyArg) (r : ℚ) (start_age end_age m : ℤ) :
    Except PyError (List (ℤ × ℚ)) :=
  if has_numpy = false then
    timeline_hybrid_py lump_events monthly r start_age end_age m
  else do
    let i := r / m
    let months : ℤ := (end_age - start_age) * m
    let growth := 1 + i
    let res ← _pre_start_value_and_adjust lump_events monthly r start_age end_age m
    let lump_vec : ℤ → ℚ := res.post_lumps.foldl
      (fun f la =>
        let mi := _age_to_month_end la.1 start_age m months
        if 0 ≤ mi ∧ mi ≤ months then updateMap f mi la.2 else f)
      (fun _ => 0)
    let add_vec : ℤ → ℚ := fun k =>
      if 0 ≤ k ∧ k ≤ months then res.monthly_by_period k else 0
    let adj : ℕ → ℚ := fun k => growth * lump_vec k + add_vec k
    let conv : ℕ → ℚ := fun t => ∑ k ∈ Finset.range (t + 1), adj k * growth ^ (t - k)
    let values : ℕ → ℚ := fun t => growth ^ (t + 1) * res.pre_value + conv t
    let ks := pyRangeStep 0 (months + 1) m
    let years := ks.map (fun k => start_age + k.fdiv m)
    let vals := ks.map (fun k => values k.toNat)
    return years.zip vals

/-- `finance.timeline_hybrid`: engine entry point; uses the vectorized path
only when both requested and available. -/
def timeline_hybrid (has_numpy : Bool) (lump_events : List (ℚ × ℚ))
    (monthly : MonthlyArg) (r : ℚ) (start_age end_age m : ℤ) (use_numpy : Bool) :
    Except PyError (List (ℤ × ℚ)) :=
  if use_numpy ∧ has_numpy then
    timeline_hybrid_np has_numpy lump_events monthly r start_age end_age m
  else
    timeline_hybrid_py lump_events monthly r start_age end_age m

/-- `finance.value_at_age_hybrid_exact`: value at a fractional target age,
discounting backward below `start_age` and running the sequential recurrence
forward otherwise. -/
def value_at_age_hybrid_exact (lump_events : List (ℚ × ℚ)) (monthly : MonthlyArg)
    (r target_age_float start_age : ℚ) (m : ℤ) : Except PyError ℚ := do
  let horizon := max target_age_float start_age
  let res ← _pre_start_value_and_adjust lump_events monthly r start_age horizon m
  let i := r / m
  if target_age_float < start_age then
    let months := pyRound ((start_age - target_age_float) * m)
    return res.pre_value / (1 + i) ^ months
  else
    let max_month := pyRound ((horizon - start_age) * m)
    let lump_by_month := lumpsToMap res.post_lumps start_age m max_month
    let end_month := pyRound ((target_age_float - start_age) * m)
    let monthly_vec : ℤ → ℚ := fun k =>
      if 0 ≤ k ∧ k ≤ end_month then res.monthly_by_period k else 0
    return (pyRange 0 (end_month + 1)).foldl (step1 i lump_by_month monthly_vec) res.pre_value

/-- Python's `str.lower()` (character-wise lowercasing). -/
def pyLower (s : String) : String := ⟨s.data.map Char.toLower⟩

/-- `computation.resolve_use_numpy`: dispatch-layer engine resolver; raises
`ValueError` on unknown engine strings and `RuntimeError` when `numpy` is
forced but unavailable. -/
def resolve_use_numpy (has_numpy : Bool) (engine : String) : Except PyError Bool :=
  let normalized := pyLower engine
  if ¬ (normalized = "auto" ∨ normalized = "numpy" ∨ normalized = "python") then
    .error .valueError
  else if normalized = "numpy" then
    if has_numpy = false then .error .runtimeError else .ok true
  else if normalized = "python" then .ok false
  else .ok has_numpy

/-- Extract a timeline from a non-raising simulation call. -/
def getTimeline (e : Except PyError (List (ℤ × ℚ))) : List (ℤ × ℚ) :=
  (e.toOption).getD []

end Estimator529

namespace Estimator529

/-! ## Evaluation helpers -/

/-- Floor of a rational as integer division of numerator by denominator. -/
theorem floor_eval (q : ℚ) : ⌊q⌋ = q.num / (q.den : ℤ) := Rat.floor_def

/-- Ceiling of a rational via the floor of its negation. -/
theorem ceil_eval (q : ℚ) : ⌈q⌉ = -((-q).num / ((-q).den : ℤ)) := by
  rw [← neg_neg ⌈q⌉, ← Int.floor_neg, floor_eval]

/-- With no recurring schedule the accumulator reduces to the lump pass:
pre-start lumps rolled forward, in-window lumps retained, empty period map. -/
theorem pre_start_none (lumps : List (ℚ × ℚ)) (r s h : ℚ) (m : ℤ) :
    _pre_start_value_and_adjust lumps .none r s h m =
      .ok ⟨preLumpValue lumps s m (r / m),
        lumps.filter (fun la => ¬ la.1 < s ∧ la.1 ≤ max h s), fun _ => 0⟩ := by
  simp [_pre_start_value_and_adjust, _normalize_monthlies]

/-- C6: for a single lump `L` at `age = startAge - 1` with `M = 12` and no
recurring schedule, `value_at_age_hybrid_exact` at `targetAge = startAge - 1`
recovers `L` exactly: the accumulator rolls `L` forward by
`ceil((s-(s-1))*12 - eps) = 12` periods and the valuator divides by
`(1+i)^round((s-(s-1))*12) = (1+i)^12`.  (The hypothesis excludes the
degenerate rate `r = -12` where `1 + r/12 = 0` and Python would divide by
zero.) -/
theorem backward_forward_inverse (L r s : ℚ) (hg : 1 + r / 12 ≠ 0) :
    value_at_age_hybrid_exact [(s - 1, L)] .none r (s - 1) s 12 = .ok L := by
  have hmax : max (s - 1) s = s := max_eq_right (by linarith)
  have hlt : s - 1 < s := by linarith
  have h12 : (s - (s - 1)) * 12 = 12 := by ring
  have hceil : (⌈(s - (s - 1)) * 12 - eps⌉ : ℤ) = 12 := by
    rw [show (s - (s - 1)) * 12 - eps = 12 - eps by rw [h12]]
    rw [ceil_eval]; norm_num [eps]
  have hround : pyRound ((12 : ℚ)) = 12 := by
    norm_num [pyRound, Int.floor_intCast]
  have hceil2 : (⌈(12 : ℚ) - eps⌉ : ℤ) = 12 := by
    rw [ceil_eval]; norm_num [eps]
  have heps : eps < (12 : ℚ) := by norm_num [eps]
  have hcast : ((12 : ℤ) : ℚ) = 12 := by norm_num
  simp [value_at_age_hybrid_exact, pre_start_none, hmax, hlt, hround,
    preLumpValue, hceil, hceil2, heps, hcast]
  rw [mul_div_assoc, div_self (zpow_ne_zero _ hg), mul_one]

/-- Witness for C6 at `L = 777`, `r = 1/20`, `s = 5`. -/
theorem backward_forward_inverse_witness :
    value_at_age_hybrid_exact [(4, 777)] .none (1/20) 4 5 12 = .ok 777 := by
  have h := backward_forward_inverse 777 (1/20) 5 (by norm_num)
  norm_num at h
  exact h

end Estimator529

namespace Estimator529

/-! ## C3: `value_at_age_hybrid_exact` performs no range validation -/

/-- C3 counterexample: at `M = -1 ≤ 0` (other arguments arbitrary concrete
values) `value_at_age_hybrid_exact` returns a value normally instead of
raising `InvalidRangeError` — no such validation (or error class) exists in
the code. -/
theorem value_at_age_no_error_counterexample :
    value_at_age_hybrid_exact [] .none 0 0 0 (-1) = .ok 0 ∧ (-1 : ℤ) ≤ 0 := by
  constructor
  · norm_num [value_at_age_hybrid_exact, pre_start_none, preLumpValue, pyRound,
      pyRange, lumpsToMap, step1, Int.floor_intCast]
    rw [show List.range 1 = [0] from rfl]
    norm_num [step1]
  · decide

/-- C3 amended: `value_at_age_hybrid_exact` validates neither `startAge` nor
`M`.  With no recurring schedule and any `M < 0` it returns normally.  (The
hypotheses `m < 0` and `1 + r/m ≠ 0` delimit the domain on which the Python
code raises no exception at all: `M = 0` raises `ZeroDivisionError` at
`i = r / m` — not `InvalidRangeError` — and `1 + r/m = 0` can raise
`ZeroDivisionError` in the backward-discount division.) -/
theorem value_at_age_no_validation (lumps : List (ℚ × ℚ)) (r target s : ℚ)
    (m : ℤ) (hm : m < 0) (hg : 1 + r / (m : ℚ) ≠ 0) :
    (value_at_age_hybrid_exact lumps .none r target s m).isOk = true := by
  simp only [value_at_age_hybrid_exact, pre_start_none, Except.bind]
  split <;> rfl

/-- Witness for C3's amended theorem at `M = -1`. -/
theorem value_at_age_no_validation_witness :
    (value_at_age_hybrid_exact [(2, 50)] .none (1/10) 3 1 (-1)).isOk = true :=
  value_at_age_no_validation [(2, 50)] (1/10) 3 1 (-1) (by decide) (by norm_num)

/-! ## C10: silent sequential fallback when NumPy is unavailable -/

/-- C10: when the acceleration library is absent (`has_numpy = false`),
`timeline_hybrid` with `use_numpy = true` (and `timeline_hybrid_np` itself)
returns exactly `timeline_hybrid_py`'s result — no engine-selection error —
while the dispatch-layer resolver `resolve_use_numpy` is what surfaces the
forced-NumPy failure as a `RuntimeError`. -/
theorem numpy_unavailable_fallback :
    (∀ lumps monthly r s e m, timeline_hybrid false lumps monthly r s e m true =
        timeline_hybrid_py lumps monthly r s e m) ∧
    (∀ lumps monthly r s e m, timeline_hybrid_np false lumps monthly r s e m =
        timeline_hybrid_py lumps monthly r s e m) ∧
    resolve_use_numpy false "numpy" = .error .runtimeError := by
  refine ⟨fun _ _ _ _ _ _ => ?_, fun _ _ _ _ _ _ => ?_, ?_⟩
  · simp [timeline_hybrid]
  · simp [timeline_hybrid_np]
  · rfl

/-! ## C8: zero contributions give an all-zero timeline -/

/-- With identically-zero injection maps the loop value stays `0` and every
emitted timeline entry is `0`. -/
theorem pyLoop_all_zero (i : ℚ) (lump rec : ℤ → ℚ) (m s : ℤ)
    (hl : ∀ k, lump k = 0) (hr : ∀ k, rec k = 0) :
    ∀ (fuel : ℕ) (mi : ℤ),
      (pyLoop i lump rec m s 0 mi fuel).all (fun p => p.2 == 0) = true := by
  intro fuel
  induction fuel with
  | zero => intro mi; rfl
  | succ n ih =>
    intro mi
    have hstep : step1 i lump rec 0 mi = 0 := by simp [step1, hl, hr]
    simp only [pyLoop, hstep, List.all_append, Bool.and_eq_true]
    refine ⟨?_, ih (mi + 1)⟩
    split <;> simp

/-- C8: with no lump events and an empty (or absent) recurring schedule,
every timeline value is exactly `0`.  (`1 ≤ m` delimits the valid
compounding grids; Python raises `ZeroDivisionError` at `m = 0`.) -/
theorem zero_contribution_timeline (r : ℚ) (s e m : ℤ) (monthly : MonthlyArg)
    (hm : 1 ≤ m) (hnorm : _normalize_monthlies monthly = .ok []) :
    (getTimeline (timeline_hybrid_py [] monthly r s e m)).all
      (fun p => p.2 == 0) = true := by
  simp only [timeline_hybrid_py, _pre_start_value_and_adjust, hnorm, preLumpValue,
    List.foldl_nil, List.filter_nil, Except.bind, getTimeline, Except.toOption,
    Option.getD, lumpsToMap]
  exact pyLoop_all_zero _ _ _ _ _ (fun k => rfl) (fun k => by simp) _ _

/-- Witness for C8 at `r = 1/20`, ages `0..3`, `m = 12`, absent schedule. -/
theorem zero_contribution_timeline_witness :
    (getTimeline (timeline_hybrid_py [] .none (1/20) 0 3 12)).all
      (fun p => p.2 == 0) = true :=
  zero_contribution_timeline (1/20) 0 3 12 .none (by decide) rfl

end Estimator529

namespace Estimator529

/-! ## C9: schedule normalizer error behavior -/

/-- The coercion applied to a well-formed raw 3-tuple: numeric start and
amount, `None` end kept as unbounded. -/
def rawToSched : RawSegment → Option MonthlySchedule
  | [Option.some st, en, Option.some amt] => Option.some (st, en, amt)
  | _ => Option.none

/-- C9 counterexample: a sequence containing an *empty* tuple — arity 0,
not a 3-tuple — is accepted: the falsy item is skipped (`if not item:
continue`) and the normalizer returns `[]` instead of raising. -/
theorem normalize_empty_segment_counterexample :
    _normalize_monthlies (.seq [[]]) = .ok [] ∧ ([] : RawSegment).length ≠ 3 := by
  constructor
  · rfl
  · decide

/-- `normalizeSeq` characterized: assuming every arity-3 item is well-typed
(numeric first and third field), the pass raises `ValueError` exactly when
some *non-empty* item has arity ≠ 3, and otherwise returns the coerced
segments (empty items skipped). -/
theorem normalizeSeq_spec (items : List RawSegment)
    (h1 : ∀ it ∈ items, it.length = 3 →
      ∃ st en amt, it = [Option.some st, en, Option.some amt]) :
    normalizeSeq items =
      if ∃ it ∈ items, it ≠ [] ∧ it.length ≠ 3 then .error .valueError
      else .ok (items.filterMap rawToSched) := by
  induction items with
  | nil => simp [normalizeSeq]
  | cons it rest ih =>
    have hrest := ih (fun x hx h3 => h1 x (List.mem_cons_of_mem _ hx) h3)
    by_cases hemp : it = []
    · subst hemp
      rw [show normalizeSeq ([] :: rest) = normalizeSeq rest from by simp [normalizeSeq]]
      rw [hrest]
      simp [rawToSched]
    · by_cases hlen : it.length = 3
      · obtain ⟨st, en, amt, rfl⟩ := h1 it (List.mem_cons_self _ _) hlen
        rw [show normalizeSeq ([Option.some st, en, Option.some amt] :: rest) =
          (normalizeSeq rest).map (fun tl => (st, en, amt) :: tl) from by
            simp [normalizeSeq]]
        rw [hrest]
        by_cases hc : ∃ x ∈ rest, x ≠ [] ∧ x.length ≠ 3
        · obtain ⟨x, hx, hxp⟩ := hc
          rw [if_pos (⟨x, hx, hxp⟩ : ∃ x ∈ rest, x ≠ [] ∧ x.length ≠ 3),
            if_pos (⟨x, List.mem_cons_of_mem _ hx, hxp⟩ :
              ∃ y ∈ [Option.some st, en, Option.some amt] :: rest,
                y ≠ [] ∧ y.length ≠ 3)]
          rfl
        · rw [if_neg hc, if_neg (by
            rintro ⟨x, hx, hne, hl⟩
            rcases List.mem_cons.mp hx with rfl | hx
            · exact hl (by simp)
            · exact hc ⟨x, hx, hne, hl⟩)]
          simp [rawToSched, Except.map]
      · have herr : normalizeSeq (it :: rest) = .error .valueError := by
          rcases it with _ | ⟨a, _ | ⟨b, _ | ⟨c, _ | ⟨d, t⟩⟩⟩⟩
          · exact absurd rfl hemp
          · simp [normalizeSeq]
          · simp [normalizeSeq]
          · exact absurd rfl hlen
          · simp [normalizeSeq]
        rw [herr, if_pos ⟨it, List.mem_cons_self _ _, hemp, hlen⟩]

/-- C9 amended: the normalizer raises `ValueError` exactly when some
*non-empty* segment in the sequence has arity ≠ 3 (falsy segments are
silently skipped); otherwise it returns the segments with start, end and
amount coerced to numbers and a missing end age kept as unbounded.  (The
well-typedness hypothesis rules out the separate `TypeError` path of
`float(None)` on a start or amount field.) -/
theorem normalize_monthlies_amended (items : List RawSegment)
    (h1 : ∀ it ∈ items, it.length = 3 →
      ∃ st en amt, it = [Option.some st, en, Option.some amt]) :
    _normalize_monthlies (.seq items) =
      if ∃ it ∈ items, it ≠ [] ∧ it.length ≠ 3 then .error .valueError
      else .ok (items.filterMap rawToSched) := by
  by_cases h : items = []
  · subst h; simp [_normalize_monthlies]
  · rw [show _normalize_monthlies (.seq items) = normalizeSeq items from by
      simp [_normalize_monthlies, h]]
    exact normalizeSeq_spec items h1

/-- Witness for C9's amended theorem: one well-formed segment (with `None`
end kept as unbounded), one skipped empty segment, and a rejecting instance
with a 2-tuple. -/
theorem normalize_monthlies_amended_witness :
    _normalize_monthlies (.seq [[Option.some 1, Option.none, Option.some 5], []]) =
        .ok [(1, Option.none, 5)] ∧
      _normalize_monthlies (.seq [[Option.some 1, Option.some 2]]) =
        .error .valueError := by
  constructor
  · have h := normalize_monthlies_amended
      [[Option.some 1, Option.none, Option.some 5], []] (by
        intro it hit h3
        rcases List.mem_cons.mp hit with rfl | hit
        · exact ⟨1, Option.none, 5, rfl⟩
        · simp at hit; subst hit; simp at h3)
    rw [if_neg (by
      rintro ⟨x, hx, hne, hl⟩
      rcases List.mem_cons.mp hx with rfl | hx
      · exact hl (by simp)
      · simp at hx; subst hx; exact hne rfl)] at h
    simpa [rawToSched] using h
  · have h := normalize_monthlies_amended [[Option.some 1, Option.some 2]] (by
      intro it hit h3
      rcases List.mem_cons.mp hit with rfl | hit
      · simp at h3
      · simp at hit)
    rw [if_pos ⟨[Option.some 1, Option.some 2], List.mem_cons_self _ _,
      by simp, by simp⟩] at h
    exact h

end Estimator529

namespace Estimator529

/-! ## Loop characterization machinery (shared by C1, C2, C4, C5, C7) -/

/-- Value of the sequential accumulator after processing periods
`mi, mi+1, …, mi+n-1` starting from `v`, each period applying `step1`
(lump before growth, growth, recurring after growth). -/
def stepFrom (i : ℚ) (lump rec : ℤ → ℚ) : ℚ → ℤ → ℕ → ℚ
  | v, _, 0 => v
  | v, mi, n + 1 => stepFrom i lump rec (step1 i lump rec v mi) (mi + 1) n

/-- Unfolding `stepFrom` from the back. -/
theorem stepFrom_succ_back (i : ℚ) (lump rec : ℤ → ℚ) :
    ∀ (n : ℕ) (v : ℚ) (mi : ℤ),
      stepFrom i lump rec v mi (n + 1) =
        step1 i lump rec (stepFrom i lump rec v mi n) (mi + n) := by
  intro n
  induction n with
  | zero => intro v mi; simp [stepFrom]
  | succ k ih =>
    intro v mi
    rw [show stepFrom i lump rec v mi (k + 1 + 1) =
      stepFrom i lump rec (step1 i lump rec v mi) (mi + 1) (k + 1) from rfl]
    rw [ih]
    rw [show stepFrom i lump rec (step1 i lump rec v mi) (mi + 1) k =
      stepFrom i lump rec v mi (k + 1) from rfl]
    congr 1
    push_cast
    ring

/-- The entry (if any) that loop iteration `mi + j` contributes to the
timeline, for a loop started at `(v, mi)`. -/
def emitFn (i : ℚ) (lump rec : ℤ → ℚ) (m s : ℤ) (v : ℚ) (mi : ℤ) (j : ℕ) :
    Option (ℤ × ℚ) :=
  if (mi + j).fmod m = 0 then
    Option.some (s + (mi + j).fdiv m, stepFrom i lump rec v mi (j + 1))
  else Option.none

theorem emitFn_zero (i : ℚ) (lump rec : ℤ → ℚ) (m s : ℤ) (v : ℚ) (mi : ℤ) :
    emitFn i lump rec m s v mi 0 =
      if mi.fmod m = 0 then Option.some (s + mi.fdiv m, step1 i lump rec v mi)
      else Option.none := by
  simp [emitFn, stepFrom]

theorem emitFn_succ (i : ℚ) (lump rec : ℤ → ℚ) (m s : ℤ) (v : ℚ) (mi : ℤ) (j : ℕ) :
    emitFn i lump rec m s v mi (j + 1) =
      emitFn i lump rec m s (step1 i lump rec v mi) (mi + 1) j := by
  simp only [emitFn]
  have h1 : mi + ((j + 1 : ℕ) : ℤ) = (mi + 1) + (j : ℤ) := by push_cast; ring
  rw [h1]
  rfl

/-- The simulation loop equals the filtered enumeration of its iterations. -/
theorem pyLoop_eq_filterMap (i : ℚ) (lump rec : ℤ → ℚ) (m s : ℤ) :
    ∀ (fuel : ℕ) (v : ℚ) (mi : ℤ),
      pyLoop i lump rec m s v mi fuel =
        (List.range fuel).filterMap (emitFn i lump rec m s v mi) := by
  intro fuel
  induction fuel with
  | zero => intro v mi; rfl
  | succ n ih =>
    intro v mi
    have htail : (List.range n).filterMap (emitFn i lump rec m s v mi ∘ Nat.succ) =
        pyLoop i lump rec m s (step1 i lump rec v mi) (mi + 1) n := by
      rw [ih]
      exact List.filterMap_congr (fun j _ => emitFn_succ i lump rec m s v mi j)
    rw [List.range_succ_eq_map, pyLoop]
    by_cases hmod : mi.fmod m = 0
    · rw [List.filterMap_cons_some (by rw [emitFn_zero, if_pos hmod]),
        List.filterMap_map, htail, if_pos hmod, List.singleton_append]
    · rw [List.filterMap_cons_none (by rw [emitFn_zero, if_neg hmod]),
        List.filterMap_map, htail, if_neg hmod, List.nil_append]

/-- Filtering the multiples of `M` out of `0..Y*M` and mapping `F` equals
mapping `F` over the `Y + 1` multiples directly. -/
theorem filterMap_multiples {α : Type} (F : ℕ → α) (M : ℕ) (hM : 1 ≤ M) :
    ∀ Y : ℕ, (List.range (Y * M + 1)).filterMap (fun j =>
        if j % M = 0 then Option.some (F j) else Option.none) =
      (List.range (Y + 1)).map (fun y => F (y * M)) := by
  intro Y
  induction Y with
  | zero =>
    rw [show 0 * M + 1 = 1 by ring]
    rw [show List.range 1 = [0] from rfl]
    simp [Nat.zero_mod]
  | succ Y ih =>
    have hsplit : (Y + 1) * M + 1 = (Y * M + 1) + M := by ring
    rw [hsplit, List.range_add, List.filterMap_append, ih]
    have hchunk : ((List.range M).map (Y * M + 1 + ·)).filterMap (fun j =>
        if j % M = 0 then Option.some (F j) else Option.none) =
        [F ((Y + 1) * M)] := by
      rw [List.filterMap_map]
      obtain ⟨P, rfl⟩ : ∃ P, M = P + 1 := ⟨M - 1, by omega⟩
      rw [List.range_succ, List.filterMap_append]
      have hnil : (List.range P).filterMap ((fun j =>
          if j % (P + 1) = 0 then Option.some (F j) else Option.none) ∘
            (Y * (P + 1) + 1 + ·)) = [] := by
        apply List.filterMap_eq_nil_iff.mpr
        intro t ht
        have htlt : t < P := List.mem_range.mp ht
        have hmod : (Y * (P + 1) + 1 + t) % (P + 1) = 1 + t := by
          rw [show Y * (P + 1) + 1 + t = 1 + t + Y * (P + 1) by ring,
            Nat.add_mul_mod_self_right, Nat.mod_eq_of_lt (by omega)]
        simp only [Function.comp_apply, hmod]
        rw [if_neg (by omega)]
      have hidx : Y * (P + 1) + 1 + P = (Y + 1) * (P + 1) := by ring
      have hlast : [P].filterMap ((fun j =>
          if j % (P + 1) = 0 then Option.some (F j) else Option.none) ∘
            (Y * (P + 1) + 1 + ·)) = [F ((Y + 1) * (P + 1))] := by
        simp only [List.filterMap_cons, List.filterMap_nil, Function.comp_apply, hidx]
        rw [Nat.mul_mod_left]
        simp
      rw [hnil, hlast, List.nil_append]
    rw [hchunk]
    conv_rhs => rw [List.range_succ, List.map_append]
    rfl

end Estimator529

namespace Estimator529

/-- Closed form of the sequential recurrence from period `0`: after periods
`0..t`, the value is `(1+i)^(t+1) * v` plus each injection
`(1+i)*lump_k + rec_k` grown by `(1+i)^(t-k)`. -/
theorem stepFrom_closed (i : ℚ) (lump rec : ℤ → ℚ) (v : ℚ) :
    ∀ t : ℕ, stepFrom i lump rec v 0 (t + 1) =
      (1 + i) ^ (t + 1) * v +
        ∑ k ∈ Finset.range (t + 1),
          ((1 + i) * lump k + rec k) * (1 + i) ^ (t - k) := by
  intro t
  induction t with
  | zero =>
    simp [stepFrom, step1, Finset.sum_range_one]
    ring
  | succ t ih =>
    rw [stepFrom_succ_back, ih]
    conv_rhs => rw [Finset.sum_range_succ]
    have hsum : ∑ k ∈ Finset.range (t + 1),
        ((1 + i) * lump k + rec k) * (1 + i) ^ (t + 1 - k) =
        (1 + i) * ∑ k ∈ Finset.range (t + 1),
          ((1 + i) * lump k + rec k) * (1 + i) ^ (t - k) := by
      rw [Finset.mul_sum]
      refine Finset.sum_congr rfl (fun k hk => ?_)
      have hk' : k ≤ t := by have := Finset.mem_range.mp hk; omega
      rw [show t + 1 - k = (t - k) + 1 by omega, pow_succ]
      ring
    rw [hsum]
    simp only [step1, zero_add, Nat.sub_self, pow_zero, Nat.cast_add, Nat.cast_one]
    ring

/-- The pure-Python timeline, characterized as one entry per year `y` with
age `s + y` and value given by running the ordered sequential update
(`step1`: lump before growth, then growth, then recurring) for `y*M + 1`
periods from the pre-horizon value. -/
theorem timeline_py_eq_map (lumps : List (ℚ × ℚ)) (monthly : MonthlyArg) (r : ℚ)
    (s e m : ℤ) (hm : 1 ≤ m) (hse : s ≤ e) (res : PreStartResult)
    (hres : _pre_start_value_and_adjust lumps monthly r s e m = .ok res) :
    timeline_hybrid_py lumps monthly r s e m =
      .ok ((List.range ((e - s).toNat + 1)).map (fun (y : ℕ) =>
        ((s + (y : ℤ)),
          stepFrom (r / m)
            (lumpsToMap res.post_lumps s m ((e - s) * m))
            (fun k => if 0 ≤ k ∧ k ≤ (e - s) * m then res.monthly_by_period k else 0)
            res.pre_value 0 (y * m.toNat + 1)))) := by
  have hm0 : (0 : ℤ) ≤ m := by omega
  have hmM : (m.toNat : ℤ) = m := Int.toNat_of_nonneg hm0
  have hYe : ((e - s).toNat : ℤ) = e - s := Int.toNat_of_nonneg (by omega)
  have hMpos : 0 < m.toNat := by omega
  have hEM : (e - s) * m = (((e - s).toNat * m.toNat : ℕ) : ℤ) := by
    rw [Nat.cast_mul, hmM, hYe]
  have hfuel : ((e - s) * m + 1).toNat = (e - s).toNat * m.toNat + 1 := by
    rw [hEM]; omega
  have htime : timeline_hybrid_py lumps monthly r s e m =
      .ok (pyLoop (r / m)
        (lumpsToMap res.post_lumps s m ((e - s) * m))
        (fun k => if 0 ≤ k ∧ k ≤ (e - s) * m then res.monthly_by_period k else 0)
        m s res.pre_value 0 ((e - s) * m + 1).toNat) := by
    simp [timeline_hybrid_py, hres]
  rw [htime, pyLoop_eq_filterMap, hfuel]
  congr 1
  have hfun : ∀ j : ℕ,
      emitFn (r / m) (lumpsToMap res.post_lumps s m ((e - s) * m))
        (fun k => if 0 ≤ k ∧ k ≤ (e - s) * m then res.monthly_by_period k else 0)
        m s res.pre_value 0 j =
      (if j % m.toNat = 0 then
        Option.some (((s + ((j / m.toNat : ℕ) : ℤ)),
          stepFrom (r / m)
            (lumpsToMap res.post_lumps s m ((e - s) * m))
            (fun k => if 0 ≤ k ∧ k ≤ (e - s) * m then res.monthly_by_period k else 0)
            res.pre_value 0 (j + 1)))
      else Option.none) := by
    intro j
    simp only [emitFn, zero_add]
    have hfmod : ((j : ℤ)).fmod m = ((j % m.toNat : ℕ) : ℤ) := by
      rw [← hmM, Int.fmod_eq_emod _ (by exact_mod_cast Nat.zero_le m.toNat)]
      push_cast
      rfl
    have hfdiv : ((j : ℤ)).fdiv m = ((j / m.toNat : ℕ) : ℤ) := by
      rw [← hmM, Int.fdiv_eq_ediv _ (by exact_mod_cast Nat.zero_le m.toNat)]
      push_cast
      rfl
    rw [hfmod, hfdiv]
    by_cases h : j % m.toNat = 0
    · rw [if_pos (by exact_mod_cast h), if_pos h]
    · rw [if_neg (fun hc => h (by exact_mod_cast hc)), if_neg h]
  rw [List.filterMap_congr (fun j _ => hfun j)]
  rw [filterMap_multiples _ m.toNat hMpos ((e - s).toNat)]
  refine List.map_congr_left (fun y hy => ?_)
  rw [Nat.mul_div_cancel y hMpos]

end Estimator529

namespace Estimator529

/-- C2: in the sequential simulator, every period `0..T` applies the state
update in the fixed order modelled by `step1` — lump injection added before
growth, multiplication by `(1+i)`, recurring injection added after growth —
and a timeline entry `(startAge + period/M, value)` is emitted exactly at
the periods that are multiples of `M` (period `0` included): the timeline
is the `Y+1` yearly samples (`Y = endAge - startAge`) of the `step1`
recurrence, the year-`y` sample being the value after periods `0..y*M`. -/
theorem sequential_update_order_and_sampling (lumps : List (ℚ × ℚ))
    (monthly : MonthlyArg) (r : ℚ) (s e m : ℤ) (hm : 1 ≤ m) (hse : s ≤ e)
    (res : PreStartResult)
    (hres : _pre_start_value_and_adjust lumps monthly r s e m = .ok res) :
    timeline_hybrid_py lumps monthly r s e m =
      .ok ((List.range ((e - s).toNat + 1)).map (fun (y : ℕ) =>
        ((s + (y : ℤ)),
          stepFrom (r / m)
            (lumpsToMap res.post_lumps s m ((e - s) * m))
            (fun k => if 0 ≤ k ∧ k ≤ (e - s) * m then res.monthly_by_period k else 0)
            res.pre_value 0 (y * m.toNat + 1)))) :=
  timeline_py_eq_map lumps monthly r s e m hm hse res hres

/-- Witness for C2: a single lump of 100 at the start age, rate 1/10,
annual grid (`M = 1`), two years; the emitted values are the ordered
recurrence's samples `100*(11/10)`, `100*(11/10)^2`, `100*(11/10)^3`. -/
theorem sequential_update_order_witness :
    timeline_hybrid_py [(0, 100)] .none (1/10) 0 2 1 =
      .ok [(0, 110), (1, 121), (2, 1331/10)] := by
  have hres : _pre_start_value_and_adjust [((0 : ℚ), (100 : ℚ))] .none (1/10)
      ((0 : ℤ) : ℚ) ((2 : ℤ) : ℚ) 1 = .ok ⟨0, [(0, 100)], fun _ => 0⟩ := by
    rw [pre_start_none]
    norm_num [preLumpValue]
  have h := sequential_update_order_and_sampling [(0, 100)] .none (1/10) 0 2 1
    (by decide) (by decide) ⟨0, [(0, 100)], fun _ => 0⟩ hres
  rw [h]
  norm_num [stepFrom, step1, lumpsToMap, updateMap, _age_to_month_end,
    floor_eval, eps, List.range_succ]
  rw [show Int.toNat 2 = 2 from rfl]
  norm_num [stepFrom, step1, List.range_succ, updateMap]

end Estimator529

namespace Estimator529

/-- `_age_to_month_end` always lands in `[0, max_month]` when the window is
non-empty, so the vectorized path's extra range guard is vacuous. -/
theorem age_to_month_end_bounds (age sa : ℚ) (m mm : ℤ) (hmm : 0 ≤ mm) :
    0 ≤ _age_to_month_end age sa m mm ∧ _age_to_month_end age sa m mm ≤ mm := by
  unfold _age_to_month_end
  dsimp only
  split
  · omega
  · split <;> omega

/-- The guarded lump-bucketing fold of the vectorized path equals the
unguarded one of the sequential path. -/
theorem lumps_fold_guard (post : List (ℚ × ℚ)) (sa : ℚ) (m mm : ℤ) (hmm : 0 ≤ mm) :
    post.foldl (fun f la =>
      if 0 ≤ _age_to_month_end la.1 sa m mm ∧ _age_to_month_end la.1 sa m mm ≤ mm then
        updateMap f (_age_to_month_end la.1 sa m mm) la.2
      else f) (fun _ => 0) = lumpsToMap post sa m mm := by
  unfold lumpsToMap
  congr 1
  funext f la
  rw [if_pos (age_to_month_end_bounds la.1 sa m mm hmm)]

/-- `range(0, Y*M + 1, M)` enumerates exactly the `Y + 1` multiples of `M`. -/
theorem pyRangeStep_multiples (m : ℤ) (Y : ℕ) (hm : 1 ≤ m) :
    pyRangeStep 0 (((Y * m.toNat : ℕ) : ℤ) + 1) m =
      (List.range (Y + 1)).map (fun y => ((y * m.toNat : ℕ) : ℤ)) := by
  have hmM : (m.toNat : ℤ) = m := Int.toNat_of_nonneg (by omega)
  unfold pyRangeStep
  rw [if_neg (by omega)]
  have hcount : (((Y * m.toNat : ℕ) : ℤ) + 1 - 0 + m - 1) / m = (Y : ℤ) + 1 := by
    rw [show ((Y * m.toNat : ℕ) : ℤ) + 1 - 0 + m - 1 = m * ((Y : ℤ) + 1) by
      push_cast [hmM]; ring]
    exact Int.mul_ediv_cancel_left _ (by omega)
  rw [hcount, show ((Y : ℤ) + 1).toNat = Y + 1 by omega]
  refine List.map_congr_left (fun k hk => ?_)
  push_cast [hmM]
  ring

/-- C1: the vectorized simulator (closed-form growth-power/convolution) and
the sequential simulator return identical timelines — same ages in the same
order, with values agreeing exactly over exact rational arithmetic — for
every valid input (`M ≥ 1`, integer `startAge ≤ endAge`, arbitrary lumps,
recurring schedule and rate; a schedule rejected by the normalizer raises
the identical error on both paths). -/
theorem np_py_equivalence (lumps : List (ℚ × ℚ)) (monthly : MonthlyArg) (r : ℚ)
    (s e m : ℤ) (hm : 1 ≤ m) (hse : s ≤ e) :
    timeline_hybrid_np true lumps monthly r s e m =
      timeline_hybrid_py lumps monthly r s e m := by
  cases hres : _pre_start_value_and_adjust lumps monthly r s e m with
  | error err =>
    simp [timeline_hybrid_np, timeline_hybrid_py, hres]
  | ok res =>
    have hm0 : (0 : ℤ) ≤ m := by omega
    have hmM : (m.toNat : ℤ) = m := Int.toNat_of_nonneg hm0
    have hMpos : 0 < m.toNat := by omega
    have hYe : ((e - s).toNat : ℤ) = e - s := Int.toNat_of_nonneg (by omega)
    have hEM : (e - s) * m = (((e - s).toNat * m.toNat : ℕ) : ℤ) := by
      rw [Nat.cast_mul, hmM, hYe]
    have hEMnn : (0 : ℤ) ≤ (e - s) * m := by
      rw [hEM]; exact_mod_cast Nat.zero_le _
    have hnp : timeline_hybrid_np true lumps monthly r s e m =
        .ok ((pyRangeStep 0 ((e - s) * m + 1) m).map (fun k =>
          (s + k.fdiv m,
            (1 + r / m) ^ (k.toNat + 1) * res.pre_value +
              ∑ x ∈ Finset.range (k.toNat + 1),
                ((1 + r / m) *
                    (res.post_lumps.foldl (fun f la =>
                      if 0 ≤ _age_to_month_end la.1 s m ((e - s) * m) ∧
                          _age_to_month_end la.1 s m ((e - s) * m) ≤ (e - s) * m then
                        updateMap f (_age_to_month_end la.1 s m ((e - s) * m)) la.2
                      else f) (fun _ => 0)) x +
                  (if (x : ℤ) ≤ (e - s) * m then res.monthly_by_period x else 0)) *
                (1 + r / m) ^ (k.toNat - x)))) := by
      simp [timeline_hybrid_np, hres]
      rw [List.zip_map']
    rw [hnp, timeline_py_eq_map lumps monthly r s e m hm hse res hres]
    have hks : pyRangeStep 0 ((e - s) * m + 1) m =
        (List.range ((e - s).toNat + 1)).map (fun y => ((y * m.toNat : ℕ) : ℤ)) := by
      rw [hEM]
      exact pyRangeStep_multiples m ((e - s).toNat) hm
    rw [hks, List.map_map]
    congr 1
    refine List.map_congr_left (fun y hy => ?_)
    simp only [Function.comp_apply]
    have hage : ((( y * m.toNat : ℕ) : ℤ)).fdiv m = (y : ℤ) := by
      rw [show (((y * m.toNat : ℕ) : ℤ)) = m * (y : ℤ) by push_cast [hmM]; ring]
      rw [Int.fdiv_eq_ediv _ hm0]
      exact Int.mul_ediv_cancel_left _ (by omega)
    have htn : (((y * m.toNat : ℕ) : ℤ)).toNat = y * m.toNat := by omega
    rw [hage, htn, stepFrom_closed]
    rw [lumps_fold_guard res.post_lumps s m ((e - s) * m) hEMnn]
    refine congrArg (Prod.mk _) ?_
    refine congrArg (HAdd.hAdd _) ?_
    refine Finset.sum_congr rfl (fun x hx => ?_)
    rw [if_congr (Iff.symm (and_iff_right (Int.natCast_nonneg x))) rfl rfl]

end Estimator529

namespace Estimator529

/-- Witness for C1 at a concrete valid input (lump at age 1/2, rate 6%,
monthly grid, two years). -/
theorem np_py_equivalence_witness :
    timeline_hybrid_np true [(1/2, 5000)] .none (6/100) 0 2 12 =
      timeline_hybrid_py [(1/2, 5000)] .none (6/100) 0 2 12 :=
  np_py_equivalence [(1/2, 5000)] .none (6/100) 0 2 12 (by decide) (by decide)

/-! ## C7: monotone growth for non-negative contributions -/

/-- One ordered update never decreases a non-negative accumulator when the
growth factor is at least 1 and both injections are non-negative. -/
theorem step1_ge (i : ℚ) (lump rec : ℤ → ℚ) (v : ℚ) (mi : ℤ)
    (hg : 1 ≤ 1 + i) (hv : 0 ≤ v) (hl : 0 ≤ lump mi) (hr : 0 ≤ rec mi) :
    v ≤ step1 i lump rec v mi := by
  unfold step1
  dsimp only
  nlinarith [mul_nonneg (add_nonneg hv hl) (by linarith : (0:ℚ) ≤ i)]

/-- The loop's emitted values are bounded below by the running value and
form a non-decreasing chain. -/
theorem pyLoop_mono (i : ℚ) (lump rec : ℤ → ℚ) (m s : ℤ)
    (hg : 1 ≤ 1 + i) (hlump : ∀ k, 0 ≤ lump k) (hrec : ∀ k, 0 ≤ rec k) :
    ∀ (fuel : ℕ) (v : ℚ) (mi : ℤ), 0 ≤ v →
      List.Chain' (fun p q : ℤ × ℚ => p.2 ≤ q.2) (pyLoop i lump rec m s v mi fuel) ∧
      ∀ p ∈ pyLoop i lump rec m s v mi fuel, v ≤ p.2 := by
  intro fuel
  induction fuel with
  | zero => intro v mi hv; exact ⟨List.chain'_nil, fun p hp => absurd hp (List.not_mem_nil p)⟩
  | succ n ih =>
    intro v mi hv
    have hstep : v ≤ step1 i lump rec v mi :=
      step1_ge i lump rec v mi hg hv (hlump mi) (hrec mi)
    have hv1 : 0 ≤ step1 i lump rec v mi := le_trans hv hstep
    obtain ⟨ihchain, ihge⟩ := ih (step1 i lump rec v mi) (mi + 1) hv1
    rw [pyLoop]
    by_cases hmod : mi.fmod m = 0
    · rw [if_pos hmod, List.singleton_append]
      refine ⟨List.chain'_cons'.mpr ⟨fun q hq => ?_, ihchain⟩, fun p hp => ?_⟩
      · exact ihge q (List.mem_of_mem_head? hq)
      · rcases List.mem_cons.mp hp with rfl | hp
        · exact hstep
        · exact le_trans hstep (ihge p hp)
    · rw [if_neg hmod, List.nil_append]
      exact ⟨ihchain, fun p hp => le_trans hstep (ihge p hp)⟩

/-- `preLumpValue` is non-negative when all amounts are and the growth
factor is non-negative. -/
theorem preLumpValue_nonneg (lumps : List (ℚ × ℚ)) (sa : ℚ) (m : ℤ) (i : ℚ)
    (hg : 0 ≤ 1 + i) (hl : ∀ la ∈ lumps, 0 ≤ la.2) : 0 ≤ preLumpValue lumps sa m i := by
  unfold preLumpValue
  suffices h : ∀ (l : List (ℚ × ℚ)), (∀ la ∈ l, 0 ≤ la.2) → ∀ acc, 0 ≤ acc →
      0 ≤ l.foldl (fun acc la =>
        if la.1 < sa then
          if ⌈(sa - la.1) * m - eps⌉ > 0 then
            acc + la.2 * (1 + i) ^ ⌈(sa - la.1) * m - eps⌉
          else acc + la.2
        else acc) acc by
    exact h lumps hl 0 le_rfl
  intro l
  induction l with
  | nil => intro _ acc hacc; exact hacc
  | cons la rest ihl =>
    intro hmem acc hacc
    rw [List.foldl_cons]
    refine ihl (fun x hx => hmem x (List.mem_cons_of_mem _ hx)) _ ?_
    have hla : 0 ≤ la.2 := hmem la (List.mem_cons_self _ _)
    split
    · split
      · exact add_nonneg hacc (mul_nonneg hla (zpow_nonneg hg _))
      · exact add_nonneg hacc hla
    · exact hacc

/-- One month iteration of the recurring pass preserves non-negativity of
the `(pre_value, monthly_by_period)` state. -/
theorem monthStep_nonneg (sa hz ms ee ma : ℚ) (m tp : ℤ) (i : ℚ)
    (hg : 0 ≤ 1 + i) (hma : 0 ≤ ma) (st : ℚ × (ℤ → ℚ))
    (h : 0 ≤ st.1 ∧ ∀ k, 0 ≤ st.2 k) (mo : ℤ) :
    0 ≤ (monthStep sa hz ms ee ma m tp i st mo).1 ∧
      ∀ k, 0 ≤ (monthStep sa hz ms ee ma m tp i st mo).2 k := by
  unfold monthStep
  dsimp only
  split
  · exact h
  split
  · split
    · exact ⟨add_nonneg h.1 (mul_nonneg hma (zpow_nonneg hg _)), h.2⟩
    · exact ⟨add_nonneg h.1 hma, h.2⟩
  split
  · exact h
  split
  · refine ⟨h.1, fun k => ?_⟩
    unfold updateMap
    dsimp only
    split
    · exact add_nonneg (h.2 k) hma
    · exact h.2 k
  · exact h

/-- The recurring-schedule pass preserves non-negativity of both the
pre-horizon value and the period-injection map. -/
theorem sched_fold_nonneg (norm : List MonthlySchedule) (sa hz : ℚ) (m tp : ℤ)
    (i : ℚ) (hg : 0 ≤ 1 + i) (hamt : ∀ sc ∈ norm, 0 ≤ sc.2.2)
    (st0 : ℚ × (ℤ → ℚ)) (h0 : 0 ≤ st0.1 ∧ ∀ k, 0 ≤ st0.2 k) :
    0 ≤ (norm.foldl (schedStep sa hz m tp i) st0).1 ∧
      ∀ k, 0 ≤ (norm.foldl (schedStep sa hz m tp i) st0).2 k := by
  induction norm generalizing st0 with
  | nil => exact h0
  | cons sc rest ihn =>
    rw [List.foldl_cons]
    refine ihn (fun x hx => hamt x (List.mem_cons_of_mem _ hx)) _ ?_
    have hsc : 0 ≤ sc.2.2 := hamt sc (List.mem_cons_self _ _)
    unfold schedStep
    dsimp only
    split
    · exact h0
    split
    · exact h0
    · generalize pyRange (⌈(sc.1 - sa) * 12 - eps⌉)
        (⌊(min (sc.2.1.getD hz) hz - sa) * 12 + eps⌋ + 1) = months
      induction months generalizing st0 with
      | nil => exact h0
      | cons mo mrest ihm =>
        rw [List.foldl_cons]
        exact ihm _ (monthStep_nonneg sa hz sc.1 (min (sc.2.1.getD hz) hz) sc.2.2
          m tp i hg hsc st0 h0 mo)

/-- The lump bucketing map is pointwise non-negative when all post-start
lump amounts are. -/
theorem lumpsToMap_nonneg (post : List (ℚ × ℚ)) (sa : ℚ) (m mm : ℤ)
    (hl : ∀ la ∈ post, 0 ≤ la.2) : ∀ k, 0 ≤ lumpsToMap post sa m mm k := by
  unfold lumpsToMap
  suffices h : ∀ (l : List (ℚ × ℚ)), (∀ la ∈ l, 0 ≤ la.2) → ∀ (f : ℤ → ℚ),
      (∀ k, 0 ≤ f k) → ∀ k, 0 ≤ (l.foldl (fun f la =>
        updateMap f (_age_to_month_end la.1 sa m mm) la.2) f) k by
    exact h post hl _ (fun _ => le_rfl)
  intro l
  induction l with
  | nil => intro _ f hf; exact hf
  | cons la rest ihl =>
    intro hmem f hf
    rw [List.foldl_cons]
    refine ihl (fun x hx => hmem x (List.mem_cons_of_mem _ hx)) _ (fun k => ?_)
    unfold updateMap
    split
    · exact add_nonneg (hf k) (hmem la (List.mem_cons_self _ _))
    · exact hf k

end Estimator529

namespace Estimator529

/-- Under non-negative contributions and a non-negative growth factor, every
component produced by the accumulator is non-negative. -/
theorem pre_start_nonneg (lumps : List (ℚ × ℚ)) (monthly : MonthlyArg) (r sa hz : ℚ)
    (m : ℤ) (norm : List MonthlySchedule)
    (hnorm : _normalize_monthlies monthly = .ok norm)
    (hg : 0 ≤ 1 + r / m) (hl : ∀ la ∈ lumps, 0 ≤ la.2)
    (hamt : ∀ sc ∈ norm, 0 ≤ sc.2.2) (res : PreStartResult)
    (hres : _pre_start_value_and_adjust lumps monthly r sa hz m = .ok res) :
    0 ≤ res.pre_value ∧ (∀ k, 0 ≤ res.monthly_by_period k) ∧
      ∀ la ∈ res.post_lumps, 0 ≤ la.2 := by
  have hfold := sched_fold_nonneg norm sa (max hz sa) m
    (pyRound ((max hz sa - sa) * m)) (r / m) hg hamt
    (preLumpValue lumps sa m (r / m), fun _ => 0)
    ⟨preLumpValue_nonneg lumps sa m (r / m) hg hl, fun _ => le_rfl⟩
  simp only [_pre_start_value_and_adjust, hnorm] at hres
  simp at hres
  subst hres
  exact ⟨hfold.1, hfold.2, fun la hla => hl la (List.mem_of_mem_filter hla)⟩

/-- C7: with a strictly positive rate and all lump and recurring amounts
non-negative, the sequential simulator's timeline values are non-decreasing
in age. -/
theorem timeline_monotone (lumps : List (ℚ × ℚ)) (monthly : MonthlyArg) (r : ℚ)
    (s e m : ℤ) (hm : 1 ≤ m) (hr : 0 < r)
    (hl : ∀ la ∈ lumps, 0 ≤ la.2) (norm : List MonthlySchedule)
    (hnorm : _normalize_monthlies monthly = .ok norm)
    (hamt : ∀ sc ∈ norm, 0 ≤ sc.2.2) :
    List.Chain' (fun p q : ℤ × ℚ => p.2 ≤ q.2)
      (getTimeline (timeline_hybrid_py lumps monthly r s e m)) := by
  have hmq : (0 : ℚ) ≤ (m : ℚ) := by exact_mod_cast (by omega : (0 : ℤ) ≤ m)
  have hi : 0 ≤ r / (m : ℚ) := div_nonneg hr.le hmq
  have hg1 : 1 ≤ 1 + r / (m : ℚ) := by linarith
  have hg0 : 0 ≤ 1 + r / (m : ℚ) := by linarith
  cases hres : _pre_start_value_and_adjust lumps monthly r s e m with
  | error err => simp [getTimeline, timeline_hybrid_py, hres, Except.toOption]
  | ok res =>
    obtain ⟨hpre, hmbp, hpost⟩ := pre_start_nonneg lumps monthly r s e m norm
      hnorm hg0 hl hamt res hres
    have htime : timeline_hybrid_py lumps monthly r s e m =
        .ok (pyLoop (r / m) (lumpsToMap res.post_lumps s m ((e - s) * m))
          (fun k => if 0 ≤ k ∧ k ≤ (e - s) * m then res.monthly_by_period k else 0)
          m s res.pre_value 0 ((e - s) * m + 1).toNat) := by
      simp [timeline_hybrid_py, hres]
    rw [htime]
    exact (pyLoop_mono (r / m) _ _ m s hg1
      (lumpsToMap_nonneg res.post_lumps s m ((e - s) * m) hpost)
      (fun k => by split; exacts [hmbp k, le_rfl])
      _ res.pre_value 0 hpre).1

/-- Witness for C7: one non-negative lump, rate 10%, monthly grid. -/
theorem timeline_monotone_witness :
    List.Chain' (fun p q : ℤ × ℚ => p.2 ≤ q.2)
      (getTimeline (timeline_hybrid_py [(0, 100)] .none (1/10) 0 2 12)) :=
  timeline_monotone [(0, 100)] .none (1/10) 0 2 12 (by decide) (by norm_num)
    (by intro la hla; rcases List.mem_singleton.mp hla with rfl; norm_num)
    [] rfl (fun sc hsc => absurd hsc (List.not_mem_nil sc))

end Estimator529

namespace Estimator529

/-! ## C4: concrete scenario (6% rate, lump 5000 at age 0.5, ages 0..25) -/

/-- The recurrence value is non-negative whenever the start value is. -/
theorem stepFrom_nonneg (i : ℚ) (lump rec : ℤ → ℚ) (hg : 1 ≤ 1 + i)
    (hl : ∀ k, 0 ≤ lump k) (hr : ∀ k, 0 ≤ rec k) :
    ∀ (n : ℕ) (v : ℚ) (mi : ℤ), 0 ≤ v → 0 ≤ stepFrom i lump rec v mi n := by
  intro n
  induction n with
  | zero => intro v mi hv; exact hv
  | succ k ih =>
    intro v mi hv
    rw [show stepFrom i lump rec v mi (k + 1) =
      stepFrom i lump rec (step1 i lump rec v mi) (mi + 1) k from rfl]
    exact ih _ _ (le_trans hv (step1_ge i lump rec v mi hg hv (hl mi) (hr mi)))

/-- The recurrence value is monotone in the number of periods processed. -/
theorem stepFrom_le_stepFrom (i : ℚ) (lump rec : ℤ → ℚ) (hg : 1 ≤ 1 + i)
    (hl : ∀ k, 0 ≤ lump k) (hr : ∀ k, 0 ≤ rec k) (v : ℚ) (mi : ℤ) (hv : 0 ≤ v) :
    ∀ {n n' : ℕ}, n ≤ n' →
      stepFrom i lump rec v mi n ≤ stepFrom i lump rec v mi n' := by
  intro n n' hnn
  induction n', hnn using Nat.le_induction with
  | base => exact le_rfl
  | succ n' hn ih =>
    refine le_trans ih ?_
    rw [stepFrom_succ_back]
    exact step1_ge i lump rec _ _ hg
      (stepFrom_nonneg i lump rec hg hl hr n' v mi hv) (hl _) (hr _)

/-- One ordered update strictly increases a strictly positive accumulator
when the growth factor exceeds 1. -/
theorem step1_gt (i : ℚ) (lump rec : ℤ → ℚ) (v : ℚ) (mi : ℤ)
    (hg : 1 < 1 + i) (hv : 0 < v) (hl : 0 ≤ lump mi) (hr : 0 ≤ rec mi) :
    v < step1 i lump rec v mi := by
  unfold step1
  dsimp only
  nlinarith [mul_pos hv (show (0 : ℚ) < i by linarith),
    mul_nonneg hl (show (0 : ℚ) ≤ 1 + i by linarith)]

/-- Once the accumulator is strictly positive, running strictly more periods
strictly increases it. -/
theorem stepFrom_lt_stepFrom (i : ℚ) (lump rec : ℤ → ℚ) (hg : 1 < 1 + i)
    (hl : ∀ k, 0 ≤ lump k) (hr : ∀ k, 0 ≤ rec k) (v : ℚ) (mi : ℤ) :
    ∀ {n n' : ℕ}, n < n' → 0 < stepFrom i lump rec v mi n →
      stepFrom i lump rec v mi n < stepFrom i lump rec v mi n' := by
  intro n n' hnn hpos
  induction n', hnn using Nat.le_induction with
  | base =>
    rw [stepFrom_succ_back]
    exact step1_gt i lump rec _ _ hg hpos (hl _) (hr _)
  | succ n' hn ih =>
    rw [stepFrom_succ_back]
    exact lt_trans ih (step1_gt i lump rec _ _ hg (lt_trans hpos ih) (hl _) (hr _))

/-- The C4 scenario timeline in closed per-year form: the single lump lands
in period `6 = floor(0.5 * 12 + eps)`, the per-period rate is
`0.06/12 = 1/200`, and year `y` samples the recurrence after `y*12 + 1`
periods from a zero pre-horizon value. -/
theorem scenario_timeline :
    timeline_hybrid_py [(1/2, 5000)] .none (6/100) 0 25 12 =
      .ok ((List.range 26).map (fun (y : ℕ) =>
        (((y : ℤ)), stepFrom (1/200) (updateMap (fun _ => 0) 6 5000)
          (fun _ => 0) 0 0 (y * 12 + 1)))) := by
  have hres : _pre_start_value_and_adjust [((1 : ℚ)/2, 5000)] .none (6/100)
      ((0 : ℤ) : ℚ) ((25 : ℤ) : ℚ) 12 = .ok ⟨0, [(1/2, 5000)], fun _ => 0⟩ := by
    rw [pre_start_none]
    norm_num [preLumpValue]
  have hmap := timeline_py_eq_map [(1/2, 5000)] .none (6/100) 0 25 12
    (by decide) (by decide) ⟨0, [(1/2, 5000)], fun _ => 0⟩ hres
  rw [hmap]
  rw [show ((25 : ℤ) - 0).toNat + 1 = 26 from rfl]
  congr 1
  refine List.map_congr_left (fun y hy => ?_)
  dsimp only
  have hL : lumpsToMap [((1 : ℚ)/2, 5000)] ((0 : ℤ) : ℚ) 12 (((25 : ℤ) - 0) * 12) =
      updateMap (fun _ => 0) 6 5000 := by
    norm_num [lumpsToMap, _age_to_month_end, floor_eval, eps]
  have hi : (6 : ℚ)/100 / ((12 : ℤ) : ℚ) = 1/200 := by norm_num
  have hR : (fun k => if 0 ≤ k ∧ k ≤ ((25 : ℤ) - 0) * 12 then (0 : ℚ) else 0) =
      (fun _ => (0 : ℚ)) := by
    funext k
    simp
  rw [hL, hi, hR, zero_add, show Int.toNat 12 = 12 from rfl]

/-- C4 counterexample: the timeline entry at age 0 has value exactly `0` —
the lump dated age 0.5 has not yet been injected at the age-0 snapshot —
not `≈ 5152.27` as claimed (the difference exceeds 100, far beyond any
small tolerance). -/
theorem scenario_age0_counterexample :
    Except.map (fun l => l.head?)
        (timeline_hybrid_py [(1/2, 5000)] .none (6/100) 0 25 12) =
      .ok (Option.some ((0 : ℤ), (0 : ℚ))) ∧
    (515227/100 : ℚ) - 0 > 100 := by
  constructor
  · rw [scenario_timeline]
    rw [show (26 : ℕ) = 25 + 1 from rfl, List.range_succ_eq_map, List.map_cons]
    norm_num [stepFrom, step1, updateMap]
    rfl
  · norm_num

/-- C4 amended: the age-0 entry is exactly `0`, and the timeline values
strictly increase at every subsequent year (the lump lands at period 6, so
the accumulator is strictly positive from the age-1 sample on, and grows
strictly thereafter). -/
theorem scenario_age0_zero_and_strict_increase :
    Except.map (fun l => l.head?)
        (timeline_hybrid_py [(1/2, 5000)] .none (6/100) 0 25 12) =
      .ok (Option.some ((0 : ℤ), (0 : ℚ))) ∧
    List.Chain' (fun p q : ℤ × ℚ => p.2 < q.2)
      (getTimeline (timeline_hybrid_py [(1/2, 5000)] .none (6/100) 0 25 12)) := by
  have hLnn : ∀ k, 0 ≤ updateMap (fun _ => (0 : ℚ)) 6 5000 k := by
    intro k
    unfold updateMap
    split <;> norm_num
  have hRnn : ∀ k : ℤ, 0 ≤ (fun _ => (0 : ℚ)) k := fun _ => le_rfl
  have hg : (1 : ℚ) < 1 + 1/200 := by norm_num
  have hV1 : (0 : ℚ) <
      stepFrom (1/200) (updateMap (fun _ => 0) 6 5000) (fun _ => 0) 0 0 13 := by
    norm_num [stepFrom, step1, updateMap]
  constructor
  · rw [scenario_timeline]
    rw [show (26 : ℕ) = 25 + 1 from rfl, List.range_succ_eq_map, List.map_cons]
    norm_num [stepFrom, step1, updateMap]
    rfl
  · rw [scenario_timeline]
    rw [show getTimeline (Except.ok ((List.range 26).map (fun (y : ℕ) =>
        (((y : ℤ)), stepFrom (1/200) (updateMap (fun _ => 0) 6 5000)
          (fun _ => 0) 0 0 (y * 12 + 1))))) = (List.range 26).map (fun (y : ℕ) =>
        (((y : ℤ)), stepFrom (1/200) (updateMap (fun _ => 0) 6 5000)
          (fun _ => 0) 0 0 (y * 12 + 1))) from rfl]
    rw [List.chain'_map]
    rw [show (26 : ℕ) = 25 + 1 from rfl]
    rw [List.chain'_range_succ]
    intro y hy
    dsimp only
    by_cases hy0 : y = 0
    · subst hy0
      rw [show (0 * 12 + 1 : ℕ) = 1 from rfl]
      rw [show (1 * 12 + 1 : ℕ) = 13 from rfl]
      rw [show stepFrom (1/200) (updateMap (fun _ => 0) 6 5000)
        (fun _ => 0) 0 0 1 = 0 from by norm_num [stepFrom, step1, updateMap]]
      exact hV1
    · have hy1 : 1 ≤ y := by omega
      have hVy : (0 : ℚ) < stepFrom (1/200) (updateMap (fun _ => 0) 6 5000)
          (fun _ => 0) 0 0 (y * 12 + 1) :=
        lt_of_lt_of_le hV1 (stepFrom_le_stepFrom (1/200) _ _ hg.le hLnn hRnn
          0 0 le_rfl (by omega))
      exact stepFrom_lt_stepFrom (1/200) _ _ hg hLnn hRnn 0 0 (by omega) hVy

end Estimator529

namespace Estimator529

/-! ## C5: point valuation at the start age vs the first timeline entry -/

/-- `lumpsToMap` at key `k` sums the amounts of exactly the lumps bucketed
to period `k`. -/
theorem lumpsToMap_apply (post : List (ℚ × ℚ)) (sa : ℚ) (m mm k : ℤ) :
    lumpsToMap post sa m mm k =
      ((post.filter (fun la => _age_to_month_end la.1 sa m mm = k)).map Prod.snd).sum := by
  unfold lumpsToMap
  suffices h : ∀ (l : List (ℚ × ℚ)) (f : ℤ → ℚ),
      (l.foldl (fun f la => updateMap f (_age_to_month_end la.1 sa m mm) la.2) f) k =
        f k + ((l.filter (fun la => _age_to_month_end la.1 sa m mm = k)).map Prod.snd).sum by
    have h0 := h post (fun _ => 0)
    simpa using h0
  intro l
  induction l with
  | nil => intro f; simp
  | cons la rest ihl =>
    intro f
    rw [List.foldl_cons, ihl]
    by_cases hb : _age_to_month_end la.1 sa m mm = k
    · rw [List.filter_cons_of_pos (by simpa using hb)]
      simp [updateMap, hb]
      ring
    · rw [List.filter_cons_of_neg (by simpa using hb)]
      simp only [updateMap]
      rw [if_neg (fun hc => hb hc.symm)]

/-- A lump dated exactly at the start age is bucketed to period `0`. -/
theorem age_to_month_end_self (sa : ℚ) (m mm : ℤ) (hmm : 0 ≤ mm) :
    _age_to_month_end sa sa m mm = 0 := by
  unfold _age_to_month_end
  rw [show (sa - sa) * m + eps = eps by ring]
  rw [show ⌊eps⌋ = 0 from by rw [floor_eval]; norm_num [eps]]
  dsimp only
  rw [if_neg (by omega), if_neg (by omega)]

/-- A lump whose raw month index is at least 1 is bucketed to a period
`≥ 1` whenever the window has at least one period. -/
theorem age_to_month_end_pos (age sa : ℚ) (m mm : ℤ) (hmm : 1 ≤ mm)
    (hidx : 1 ≤ ⌊(age - sa) * m + eps⌋) :
    1 ≤ _age_to_month_end age sa m mm := by
  unfold _age_to_month_end
  dsimp only
  split
  · omega
  · split <;> omega

end Estimator529

namespace Estimator529

/-- C5 amended: `valueAtAge` at `targetAge = startAge` equals the first
timeline entry provided no lump event is dated strictly between `startAge`
and the end of the first compounding period (such lumps are bucketed into
period 0 by the timeline but discarded by the valuator, whose horizon is
`startAge`) and the recurring schedule is empty.  The hypothesis admits
every lump dated at or before `startAge` and every lump whose raw month
index `floor((age - startAge)*M + eps)` is at least 1. -/
theorem value_at_start_eq_first_entry (lumps : List (ℚ × ℚ)) (r : ℚ) (s e m : ℤ)
    (hm : 1 ≤ m) (hse : s ≤ e)
    (hbuckets : ∀ la ∈ lumps, la.1 ≤ (s : ℚ) ∨ 1 ≤ ⌊(la.1 - (s : ℚ)) * (m : ℚ) + eps⌋) :
    Except.map (fun l => l.head?) (timeline_hybrid_py lumps .none r s e m) =
      Except.map (fun v => Option.some ((s : ℤ), v))
        (value_at_age_hybrid_exact lumps .none r s s m) := by
  have hm0 : (0 : ℤ) ≤ m := by omega
  have hseQ : ((s : ℤ) : ℚ) ≤ ((e : ℤ) : ℚ) := by exact_mod_cast hse
  have hEMnn : (0 : ℤ) ≤ (e - s) * m := mul_nonneg (by omega) hm0
  have hpr0 : pyRound 0 = 0 := by norm_num [pyRound, Int.floor_zero]
  have hrange : pyRange 0 1 = [0] := by
    simp [pyRange]
    rfl
  -- timeline side
  have hresT := pre_start_none lumps r (s : ℚ) (e : ℚ) m
  rw [max_eq_left hseQ] at hresT
  rw [timeline_py_eq_map lumps .none r s e m hm hse _ hresT]
  -- valuator side, in its simp-normal form
  have hval : value_at_age_hybrid_exact lumps .none r (s : ℚ) (s : ℚ) m =
      .ok (List.foldl
        (step1 (r / (m : ℚ))
          (lumpsToMap (List.filter (fun la =>
            decide ((s : ℚ) ≤ la.1) && decide (la.1 ≤ (s : ℚ))) lumps)
            (s : ℚ) m (pyRound 0))
          (fun _ => 0))
        (preLumpValue lumps (s : ℚ) m (r / (m : ℚ))) (pyRange 0 (pyRound 0 + 1))) := by
    simp [value_at_age_hybrid_exact, pre_start_none]
  rw [hval, hpr0, show (0 : ℤ) + 1 = 1 from rfl, hrange]
  -- head of the per-year map
  rw [List.range_succ_eq_map, List.map_cons]
  simp only [Except.map, List.head?_cons, List.foldl_cons, List.foldl_nil]
  -- reduce both sides to a single ordered update and compare injections
  have hstep1 : ∀ (l rec : ℤ → ℚ) (v : ℚ),
      stepFrom (r / (m : ℚ)) l rec v 0 (0 * m.toNat + 1) = step1 (r / (m : ℚ)) l rec v 0 := by
    intro l rec v
    rw [show 0 * m.toNat + 1 = 1 from by ring]
    rfl
  rw [hstep1]
  have hfilT : (List.filter (fun la => decide (_age_to_month_end la.1 (s : ℚ) m ((e - s) * m) = 0))
      (List.filter (fun la => decide (¬ la.1 < (s : ℚ) ∧ la.1 ≤ (e : ℚ))) lumps)) =
      lumps.filter (fun la => decide (la.1 = (s : ℚ))) := by
    rw [List.filter_filter]
    refine List.filter_congr (fun la hla => ?_)
    rw [← Bool.decide_and, decide_eq_decide]
    constructor
    · rintro ⟨hb, hge, hle⟩
      by_contra hne
      have hgt : (s : ℚ) < la.1 := lt_of_le_of_ne (not_lt.mp hge) (Ne.symm hne)
      rcases hbuckets la hla with h1 | h2
      · exact absurd h1 (not_le.mpr hgt)
      · have hes : s < e := by
          by_contra hee
          have he : (e : ℚ) = (s : ℚ) := by exact_mod_cast le_antisymm (not_lt.mp hee) hse
          rw [he] at hle
          linarith
        have hEM1 : (1 : ℤ) ≤ (e - s) * m := by nlinarith [hm, show (1 : ℤ) ≤ e - s by omega]
        have := age_to_month_end_pos la.1 (s : ℚ) m ((e - s) * m) hEM1 h2
        omega
    · intro heq
      refine ⟨?_, not_lt.mpr (le_of_eq heq.symm), ?_⟩
      · rw [heq]
        exact age_to_month_end_self (s : ℚ) m ((e - s) * m) hEMnn
      · rw [heq]; exact hseQ
  have hfilV : (List.filter (fun la => decide (_age_to_month_end la.1 (s : ℚ) m 0 = 0))
      (List.filter (fun la => decide ((s : ℚ) ≤ la.1) && decide (la.1 ≤ (s : ℚ))) lumps)) =
      lumps.filter (fun la => decide (la.1 = (s : ℚ))) := by
    rw [List.filter_filter]
    refine List.filter_congr (fun la hla => ?_)
    rw [show ∀ a b c : Bool, (a && (b && c)) = (decide True && (a && (b && c))) from by decide]
    rw [← Bool.decide_and, ← Bool.decide_and, ← Bool.decide_and, decide_eq_decide]
    constructor
    · rintro ⟨-, hb, h1, h2⟩
      exact le_antisymm h2 h1
    · intro heq
      refine ⟨trivial, ?_, le_of_eq heq.symm, le_of_eq heq⟩
      rw [heq]
      exact age_to_month_end_self (s : ℚ) m 0 le_rfl
  congr 1
  simp only [step1]
  rw [lumpsToMap_apply, lumpsToMap_apply, hfilT, hfilV]
  norm_num

/-- C5 counterexample: a lump dated age `1/24` — strictly after a start age
of 0 but inside period 0 — is included in the first timeline entry (value
`1010`) yet discarded by `valueAtAge(targetAge = startAge) = 0`. -/
theorem value_at_start_counterexample :
    value_at_age_hybrid_exact [(1/24, 1000)] .none (3/25) 0 0 12 = .ok 0 ∧
    Except.map (fun l => l.head?)
        (timeline_hybrid_py [(1/24, 1000)] .none (3/25) 0 1 12) =
      .ok (Option.some ((0 : ℤ), (1010 : ℚ))) ∧
    (0 : ℚ) ≠ 1010 := by
  refine ⟨?_, ?_, by norm_num⟩
  · norm_num [value_at_age_hybrid_exact, pre_start_none, preLumpValue, pyRound,
      pyRange, lumpsToMap, step1, Int.floor_intCast]
    rw [show List.range 1 = [0] from rfl]
    norm_num [step1, lumpsToMap]
  · have hres : _pre_start_value_and_adjust [((1 : ℚ)/24, 1000)] .none (3/25)
        ((0 : ℤ) : ℚ) ((1 : ℤ) : ℚ) 12 = .ok ⟨0, [(1/24, 1000)], fun _ => 0⟩ := by
      rw [pre_start_none]
      norm_num [preLumpValue]
    rw [timeline_py_eq_map [(1/24, 1000)] .none (3/25) 0 1 12
      (by decide) (by decide) ⟨0, [(1/24, 1000)], fun _ => 0⟩ hres]
    rw [show ((1 : ℤ) - 0).toNat + 1 = 1 + 1 from rfl, List.range_succ_eq_map,
      List.map_cons]
    norm_num [stepFrom, step1, lumpsToMap, updateMap, _age_to_month_end,
      floor_eval, eps]
    rfl

/-- Witness for C5's amended theorem: lumps at ages `-1` and exactly `0`
(the start age), where the valuator and the first timeline entry agree. -/
theorem value_at_start_eq_first_entry_witness :
    Except.map (fun l => l.head?)
        (timeline_hybrid_py [(-1, 50), (0, 100)] .none (1/10) 0 1 12) =
      Except.map (fun v => Option.some ((0 : ℤ), v))
        (value_at_age_hybrid_exact [(-1, 50), (0, 100)] .none (1/10) 0 0 12) := by
  have h := value_at_start_eq_first_entry [(-1, 50), (0, 100)] (1/10) 0 1 12
    (by decide) (by decide) (by
      intro la hla
      rcases List.mem_cons.mp hla with rfl | hla
      · left; norm_num
      · rcases List.mem_singleton.mp hla with rfl
        left; norm_num)
  simpa using h

end Estimator529
